import Mathlib

/-!
# Verification of the jao-pdf pipeline scripts

Shallow embedding of the three scripts of the repository:

* `scripts/chunk_pdf.py` — `generate_pdf_chunks`: split a PDF's page list
  into `pages_per_chunk`-sized runs, with an oversized run moved to a
  legacy list and replaced by single-page subchunks.
* `scripts/merge_csvs.py` — `natural_key`, `is_empty_row`, `pad_row`,
  `merge_csvs`: merge per-chunk CSV artifacts into one normalized CSV.
* `scripts/analyze_chunks_to_csv.py` — `build_grid_from_table`: build a
  dense grid from sparse Azure table cells.

Pages are abstracted by a type `α`; the serialized size of a materialized
run of pages (`chunk_path.stat().st_size` in the script) is abstracted by
a function `size : List α → Nat` supplied as a parameter.
-/

/-- A chunk file: its 1-based sequence number (`chunk_{num}.pdf`) and the
pages it contains, in order. -/
structure Chunk (α : Type) where
  num : Nat
  pages : List α
deriving DecidableEq, Repr

/-- The emission step of `generate_pdf_chunks` (chunk_pdf.py lines 42-82)
for one accumulated run `run` at counter value `counter`: returns the
chunks appended to `chunks`, the chunks appended to `legacy_chunks`, and
the new counter.  If the materialized size exceeds
`max_chunk_size_bytes` (`S`), the run goes to legacy and is replaced by
single-page subchunks numbered `counter, counter+1, ...`; otherwise the
run is accepted as chunk `counter`. -/
def emitRun {α : Type} (size : List α → Nat) (S : Nat) (counter : Nat)
    (run : List α) : List (Chunk α) × List (Chunk α) × Nat :=
  if size run > S then
    (run.enum.map (fun pr => ⟨counter + pr.1, [pr.2]⟩),
     [⟨counter, run⟩],
     counter + run.length)
  else
    ([⟨counter, run⟩], [], counter + 1)

/-- The page loop of `generate_pdf_chunks` (chunk_pdf.py lines 38-85):
`cur` is the `current_pages` accumulator, the final list argument is the
remaining pages.  A run is emitted when the accumulator reaches
`pages_per_chunk` (`P`) or the last page has been consumed. -/
def chunkLoop {α : Type} (size : List α → Nat) (P S : Nat) :
    Nat → List α → List α → List (Chunk α) × List (Chunk α)
  | _counter, _cur, [] => ([], [])
  | counter, cur, p :: rest =>
    let cur2 := cur ++ [p]
    if cur2.length = P || rest.isEmpty then
      let e := emitRun size S counter cur2
      let r := chunkLoop size P S e.2.2 [] rest
      (e.1 ++ r.1, e.2.1 ++ r.2)
    else
      chunkLoop size P S counter cur2 rest

/-- Embedding of `generate_pdf_chunks` (chunk_pdf.py lines 10-88): returns
the list of
chunks written to `chunk_folder` and the list of oversized chunks moved
to `legacy_folder`.  The counter starts at 1. -/
def generate_pdf_chunks {α : Type} (size : List α → Nat) (P S : Nat)
    (pages : List α) : List (Chunk α) × List (Chunk α) :=
  chunkLoop size P S 1 [] pages

example :
    generate_pdf_chunks (fun l => l.length) 2 7 [10, 20, 30, 40, 50] =
      ([⟨1, [10, 20]⟩, ⟨2, [30, 40]⟩, ⟨3, [50]⟩], []) := by decide

example :
    generate_pdf_chunks (fun l => 5 * l.length) 2 7 [10, 20, 30, 40, 50] =
      ([⟨1, [10]⟩, ⟨2, [20]⟩, ⟨3, [30]⟩, ⟨4, [40]⟩, ⟨5, [50]⟩],
       [⟨1, [10, 20]⟩, ⟨3, [30, 40]⟩]) := by decide

lemma flatten_map_singleton {α β : Type} (f : α → β) (l : List α) :
    (l.map (fun a => [f a])).flatten = l.map f := by
  induction l with
  | nil => rfl
  | cons a l ih => simp [ih]

/-- The pages of the chunks emitted for one run concatenate back to the
run, in both the accept branch and the single-page fallback branch. -/
lemma emitRun_pages_flatten {α : Type} (size : List α → Nat) (S counter : Nat)
    (run : List α) :
    (((emitRun size S counter run).1).map Chunk.pages).flatten = run := by
  unfold emitRun
  split
  · have : ((run.enum.map (fun pr => (⟨counter + pr.1, [pr.2]⟩ : Chunk α))).map
        Chunk.pages) = run.enum.map (fun pr => [pr.2]) := by
      simp [List.map_map]
    simp only [this]
    rw [flatten_map_singleton]
    exact List.enum_map_snd run
  · simp

/-- Loop invariant for `chunkLoop`: while pages remain, the pages of the
emitted chunks concatenate to the accumulator followed by the remaining
pages. -/
lemma chunkLoop_pages_flatten {α : Type} (size : List α → Nat) (P S : Nat) :
    ∀ (rest cur : List α) (counter : Nat), rest ≠ [] →
      (((chunkLoop size P S counter cur rest).1).map Chunk.pages).flatten =
        cur ++ rest := by
  intro rest
  induction rest with
  | nil => intro cur counter h; exact absurd rfl h
  | cons p rest ih =>
    intro cur counter _
    simp only [chunkLoop]
    by_cases hc : ((cur ++ [p]).length = P || rest.isEmpty) = true
    · rw [if_pos hc]
      rcases eq_or_ne rest [] with h0 | h0
      · subst h0
        simp [chunkLoop, emitRun_pages_flatten]
      · simp only [List.map_append, List.flatten_append, emitRun_pages_flatten,
          ih [] _ h0]
        simp
    · rw [if_neg hc]
      have h0 : rest ≠ [] := by
        intro h
        subst h
        simp at hc
      rw [ih (cur ++ [p]) counter h0]
      simp

/-- C1: For every page sequence of length N ≥ 0 and every pages-per-chunk
target P ≥ 1, the concatenation of the pages contained in the chunks
emitted by `generate_pdf_chunks`, taken in chunk-number order (the order
of the returned list), equals the original page sequence. -/
theorem generate_pdf_chunks_covers_pages {α : Type} (size : List α → Nat)
    (P S : Nat) (pages : List α) (_hP : 1 ≤ P) :
    (((generate_pdf_chunks size P S pages).1).map Chunk.pages).flatten =
      pages := by
  cases pages with
  | nil => rfl
  | cons p rest =>
    exact chunkLoop_pages_flatten size P S (p :: rest) [] 1 (by simp)

theorem generate_pdf_chunks_covers_pages_witness :
    1 ≤ 2 ∧
      (((generate_pdf_chunks (fun l => l.length) 2 7
          [10, 20, 30, 40, 50]).1).map Chunk.pages).flatten =
        [10, 20, 30, 40, 50] :=
  ⟨by decide,
   generate_pdf_chunks_covers_pages (fun l => l.length) 2 7
     [10, 20, 30, 40, 50] (by decide)⟩

/-- In the oversized branch, the single-page subchunk carrying page `i`
of the run is among the emitted chunks, at number `counter + i`. -/
lemma single_mem_emitRun {α : Type} (size : List α → Nat) (S counter : Nat)
    (run : List α) (hover : size run > S) (i : Nat) (hi : i < run.length) :
    (⟨counter + i, [run[i]]⟩ : Chunk α) ∈ (emitRun size S counter run).1 := by
  unfold emitRun
  rw [if_pos hover]
  have hlen : i < (run.enum.map
      (fun pr => (⟨counter + pr.1, [pr.2]⟩ : Chunk α))).length := by
    simpa using hi
  have : (run.enum.map
      (fun pr => (⟨counter + pr.1, [pr.2]⟩ : Chunk α)))[i] =
      ⟨counter + i, [run[i]]⟩ := by
    rw [List.getElem_map, List.getElem_enum]
  exact this ▸ List.getElem_mem hlen

/-- Every chunk in the primary output is either within the size ceiling
or a single-page subchunk. -/
lemma chunkLoop_chunks_inv {α : Type} (size : List α → Nat) (P S : Nat) :
    ∀ (rest cur : List α) (counter : Nat) (c : Chunk α),
      c ∈ (chunkLoop size P S counter cur rest).1 →
        size c.pages ≤ S ∨ c.pages.length = 1 := by
  intro rest
  induction rest with
  | nil => intro cur counter c hc; simp [chunkLoop] at hc
  | cons p rest ih =>
    intro cur counter c hc
    simp only [chunkLoop] at hc
    by_cases hcond : ((cur ++ [p]).length = P || rest.isEmpty) = true
    · rw [if_pos hcond] at hc
      rcases List.mem_append.1 hc with h1 | h1
      · by_cases hover : size (cur ++ [p]) > S
        · simp only [emitRun, if_pos hover] at h1
          rcases List.mem_map.1 h1 with ⟨pr, _, hpr⟩
          right
          rw [← hpr]
          rfl
        · simp only [emitRun, if_neg hover] at h1
          rcases List.mem_singleton.1 h1 with rfl
          left
          exact Nat.le_of_not_lt hover
      · exact ih [] _ c h1
    · rw [if_neg hcond] at hc
      exact ih (cur ++ [p]) counter c hc

/-- Every chunk in the legacy output is oversized, and for each of its
pages a single-page subchunk at the corresponding consecutive number is
in the primary output. -/
lemma chunkLoop_legacy_inv {α : Type} (size : List α → Nat) (P S : Nat) :
    ∀ (rest cur : List α) (counter : Nat) (lc : Chunk α),
      lc ∈ (chunkLoop size P S counter cur rest).2 →
        size lc.pages > S ∧
        ∀ i (hi : i < lc.pages.length),
          (⟨lc.num + i, [lc.pages[i]]⟩ : Chunk α) ∈
            (chunkLoop size P S counter cur rest).1 := by
  intro rest
  induction rest with
  | nil => intro cur counter lc hlc; simp [chunkLoop] at hlc
  | cons p rest ih =>
    intro cur counter lc hlc
    simp only [chunkLoop] at hlc ⊢
    by_cases hcond : ((cur ++ [p]).length = P || rest.isEmpty) = true
    · rw [if_pos hcond] at hlc ⊢
      rcases List.mem_append.1 hlc with h1 | h1
      · by_cases hover : size (cur ++ [p]) > S
        · simp only [emitRun, if_pos hover] at h1
          rcases List.mem_singleton.1 h1 with rfl
          refine ⟨hover, ?_⟩
          intro i hi
          exact List.mem_append_left _ (single_mem_emitRun size S _ _ hover i hi)
        · simp only [emitRun, if_neg hover] at h1
          exact absurd h1 (List.not_mem_nil lc)
      · rcases ih [] _ lc h1 with ⟨hover, hmem⟩
        exact ⟨hover, fun i hi => List.mem_append_right _ (hmem i hi)⟩
    · rw [if_neg hcond] at hlc ⊢
      exact ih (cur ++ [p]) counter lc hlc

/-- C2: a run whose materialized size exceeds the ceiling `S` is placed in
the legacy list, never (as a multi-page run) in the primary chunk list,
and is replaced by one single-page chunk per page at consecutive sequence
numbers starting at the number the run would have occupied; the emission
step advances the counter by the run's page count. -/
theorem generate_pdf_chunks_oversized {α : Type} (size : List α → Nat)
    (P S counter : Nat) (pages run : List α) (lc : Chunk α)
    (hmem : lc ∈ (generate_pdf_chunks size P S pages).2)
    (hover : size run > S) :
    (size lc.pages > S ∧
     (2 ≤ lc.pages.length → lc ∉ (generate_pdf_chunks size P S pages).1) ∧
     (∀ i (hi : i < lc.pages.length),
        (⟨lc.num + i, [lc.pages[i]]⟩ : Chunk α) ∈
          (generate_pdf_chunks size P S pages).1)) ∧
    emitRun size S counter run =
      (run.enum.map (fun pr => ⟨counter + pr.1, [pr.2]⟩),
       [⟨counter, run⟩], counter + run.length) := by
  rcases chunkLoop_legacy_inv size P S pages [] 1 lc hmem with ⟨hbig, hsingles⟩
  refine ⟨⟨hbig, ?_, hsingles⟩, ?_⟩
  · intro h2 hin
    rcases chunkLoop_chunks_inv size P S pages [] 1 lc hin with hle | hone
    · omega
    · omega
  · unfold emitRun
    rw [if_pos hover]

theorem generate_pdf_chunks_oversized_witness :
    (⟨1, [10, 20]⟩ : Chunk Nat) ∈
        (generate_pdf_chunks (fun l => 5 * l.length) 2 7
          [10, 20, 30, 40, 50]).2 ∧
      (fun l : List Nat => 5 * l.length) [1, 2] > 7 ∧
      (((fun l : List Nat => 5 * l.length)
          (⟨1, [10, 20]⟩ : Chunk Nat).pages > 7 ∧
        (2 ≤ (⟨1, [10, 20]⟩ : Chunk Nat).pages.length →
          (⟨1, [10, 20]⟩ : Chunk Nat) ∉
            (generate_pdf_chunks (fun l => 5 * l.length) 2 7
              [10, 20, 30, 40, 50]).1) ∧
        (∀ i (hi : i < (⟨1, [10, 20]⟩ : Chunk Nat).pages.length),
          (⟨(⟨1, [10, 20]⟩ : Chunk Nat).num + i,
             [(⟨1, [10, 20]⟩ : Chunk Nat).pages[i]]⟩ : Chunk Nat) ∈
            (generate_pdf_chunks (fun l => 5 * l.length) 2 7
              [10, 20, 30, 40, 50]).1)) ∧
       emitRun (fun l : List Nat => 5 * l.length) 7 9 [1, 2] =
        ([1, 2].enum.map (fun pr => ⟨9 + pr.1, [pr.2]⟩),
         [⟨9, [1, 2]⟩], 9 + [1, 2].length)) :=
  ⟨by decide, by decide,
   generate_pdf_chunks_oversized (fun l => 5 * l.length) 2 7 9
     [10, 20, 30, 40, 50] [1, 2] ⟨1, [10, 20]⟩ (by decide) (by decide)⟩

/-! ## merge_csvs.py -/

/-- Python `str.strip()` on the character list of a string: remove leading
and trailing whitespace. -/
def stripChars (cs : List Char) : List Char :=
  ((cs.dropWhile Char.isWhitespace).reverse.dropWhile Char.isWhitespace).reverse

/-- Python `str.strip()`. -/
def strip (s : String) : String :=
  ⟨stripChars s.data⟩

/-- Embedding of `natural_key` (merge_csvs.py lines 8-14): the value of the
trailing
digit run immediately preceding `.csv` at the end of the filename
(`re.search(r"(\d+)(?=\.csv$)", p.name)`), 0 when there is no match. -/
def natural_key (name : String) : Nat :=
  let cs := name.data
  if cs.length < 4 then 0
  else if cs.drop (cs.length - 4) = ['.', 'c', 's', 'v'] then
    let stem := cs.take (cs.length - 4)
    let ds := (stem.reverse.takeWhile Char.isDigit).reverse
    if ds = [] then 0 else ds.foldl (fun n d => n * 10 + (d.toNat - 48)) 0
  else 0

example : natural_key "chunk_12_table_3.csv" = 3 := by decide
example : natural_key "chunk_12.csv" = 12 := by decide
example : natural_key "notes.txt" = 0 := by decide
example : natural_key "table.csv" = 0 := by decide

/-- Embedding of `is_empty_row` (merge_csvs.py lines 24-25): every cell
strips to the
empty string. -/
def is_empty_row (row : List String) : Bool :=
  row.all (fun c => strip c == "")

/-- Embedding of `pad_row` (merge_csvs.py lines 28-31): right-pad with
empty strings to
`width`, or truncate to `width`. -/
def pad_row (row : List String) (width : Nat) : List String :=
  if row.length < width then row ++ List.replicate (width - row.length) ""
  else row.take width

/-- An input artifact: its filename and its parsed rows. -/
abbrev CsvFile := String × List (List String)

/-- Embedding of `sorted(csv_files, key=natural_key)` (merge_csvs.py line
47): Python's
stable ascending sort by key.  A stable sort by a key is extensionally
unique, so insertion sort by the key embeds it exactly. -/
def sortFiles (files : List CsvFile) : List CsvFile :=
  files.insertionSort (fun a b => natural_key a.1 ≤ natural_key b.1)

/-- The width pre-scan of `merge_csvs` (merge_csvs.py lines 53-56):
`max_cols` is folded over every row of every file. -/
def maxCols (files : List CsvFile) : Nat :=
  files.foldl (fun m f => f.2.foldl (fun m2 r => max m2 r.length) m) 0

/-- The body of the row loop of `merge_csvs` (merge_csvs.py lines 67-75):
skip an empty row when `drop_empty_rows`, otherwise normalize the row,
optionally prefix the source filename, write it and count it. -/
def mergeRowStep (add_source drop_empty : Bool) (W : Nat) (name : String)
    (acc : List (List String) × Nat) (row : List String) :
    List (List String) × Nat :=
  if drop_empty && is_empty_row row then acc
  else
    let normalized := pad_row row W
    let out := if add_source then name :: normalized else normalized
    (acc.1 ++ [out], acc.2 + 1)

/-- The per-file loop of `merge_csvs` (merge_csvs.py lines 66-75). -/
def mergeFileStep (add_source drop_empty : Bool) (W : Nat)
    (acc : List (List String) × Nat) (f : CsvFile) :
    List (List String) × Nat :=
  f.2.foldl (mergeRowStep add_source drop_empty W f.1) acc

/-- Embedding of `merge_csvs` (merge_csvs.py lines 34-78), as a function
from the
enumerated `*.csv` files (name and parsed rows, in directory enumeration
order) to the written rows and the returned row count.  When no file is
found the function returns 0 before writing anything. -/
def merge_csvs (files : List CsvFile)
    (add_source_column drop_empty_rows : Bool) :
    List (List String) × Nat :=
  if files.isEmpty then ([], 0)
  else
    let sfiles := sortFiles files
    let max_cols := maxCols sfiles
    sfiles.foldl (mergeFileStep add_source_column drop_empty_rows max_cols)
      ([], 0)

/-- Outcome of a run of `merge_csvs` at the process level: a normal
return (rows written to the output artifact and the returned count), or
an uncaught exception aborting the run. -/
inductive MergeOutcome where
  | ok : List (List String) → Nat → MergeOutcome
  | fatal : String → MergeOutcome
deriving DecidableEq

/-- Run of `merge_csvs` against a directory that may be missing (`none`).
`Path.glob` on a missing directory yields no entries (pathlib checks
`is_dir` before scanning and returns an empty iterator), so the body
proceeds with an empty file list; no statement in the body raises. -/
def merge_csvs_run (csv_dir : Option (List CsvFile))
    (add_source_column drop_empty_rows : Bool) : MergeOutcome :=
  let files := csv_dir.getD []
  let r := merge_csvs files add_source_column drop_empty_rows
  .ok r.1 r.2

example :
    merge_csvs [("a_2.csv", [["x", "y"]]), ("a_1.csv", [["z"], ["", " "]])]
      true true =
      ([["a_1.csv", "z", ""], ["a_2.csv", "x", "y"]], 2) := by decide

/-- The rows of one file surviving the blank-row filter. -/
def keptRows (drop_empty : Bool) (rows : List (List String)) :
    List (List String) :=
  rows.filter (fun r => !(drop_empty && is_empty_row r))

/-- The output rows contributed by one file: surviving rows, normalized
to width `W`, optionally prefixed with the source filename. -/
def emitFile (add_source drop_empty : Bool) (W : Nat) (f : CsvFile) :
    List (List String) :=
  (keptRows drop_empty f.2).map
    (fun r => if add_source then f.1 :: pad_row r W else pad_row r W)

lemma foldl_mergeRowStep (add_source drop_empty : Bool) (W : Nat)
    (name : String) :
    ∀ (rows : List (List String)) (acc : List (List String) × Nat),
      rows.foldl (mergeRowStep add_source drop_empty W name) acc =
        (acc.1 ++ emitFile add_source drop_empty W (name, rows),
         acc.2 + (emitFile add_source drop_empty W (name, rows)).length) := by
  intro rows
  induction rows with
  | nil => intro acc; simp [emitFile, keptRows]
  | cons r rows ih =>
    intro acc
    rw [List.foldl_cons]
    simp only [mergeRowStep]
    split
    next h =>
      rw [ih acc]
      obtain ⟨h1, h2⟩ := Bool.and_eq_true_iff.mp h
      simp [emitFile, keptRows, List.filter_cons, h1, h2]
    next h =>
      have hfalse : (drop_empty && is_empty_row r) = false := by
        cases hb : (drop_empty && is_empty_row r) with
        | false => rfl
        | true => exact absurd hb h
      have hor : drop_empty = false ∨ is_empty_row r = false := by
        cases hd : drop_empty with
        | false => exact Or.inl rfl
        | true =>
          cases he : is_empty_row r with
          | false => exact Or.inr rfl
          | true => rw [hd, he] at hfalse; simp at hfalse
      rw [ih]
      simp [emitFile, keptRows, List.filter_cons, hfalse, List.append_assoc,
        if_pos hor]
      omega

lemma foldl_mergeFileStep (add_source drop_empty : Bool) (W : Nat) :
    ∀ (files : List CsvFile) (acc : List (List String) × Nat),
      files.foldl (mergeFileStep add_source drop_empty W) acc =
        (acc.1 ++ files.flatMap (emitFile add_source drop_empty W),
         acc.2 + (files.flatMap (emitFile add_source drop_empty W)).length) := by
  intro files
  induction files with
  | nil => intro acc; simp
  | cons f files ih =>
    intro acc
    rw [List.foldl_cons]
    rw [show mergeFileStep add_source drop_empty W acc f =
        (acc.1 ++ emitFile add_source drop_empty W f,
         acc.2 + (emitFile add_source drop_empty W f).length) from by
      cases f with
      | mk name rows => exact foldl_mergeRowStep add_source drop_empty W name rows acc]
    rw [ih]
    simp [List.flatMap_cons]
    omega

/-- `merge_csvs` writes exactly the concatenation, over the sorted files,
of each file's surviving normalized rows, and returns their count. -/
lemma merge_csvs_eq (files : List CsvFile) (add_source drop_empty : Bool) :
    merge_csvs files add_source drop_empty =
      ((sortFiles files).flatMap
         (emitFile add_source drop_empty (maxCols (sortFiles files))),
       ((sortFiles files).flatMap
         (emitFile add_source drop_empty (maxCols (sortFiles files)))).length) := by
  by_cases h : files.isEmpty
  · have : files = [] := by
      cases files with
      | nil => rfl
      | cons a l => simp at h
    subst this
    rfl
  · simp only [merge_csvs, if_neg h]
    rw [foldl_mergeFileStep]
    simp

lemma pad_row_length (row : List String) (w : Nat) :
    (pad_row row w).length = w := by
  unfold pad_row
  split
  · simp
    omega
  · simp
    omega

/-- The lengths of the rows of one file. -/
def rowLens (f : CsvFile) : List Nat := f.2.map (fun r => r.length)

lemma foldl_max_shift (l : List Nat) : ∀ m : Nat,
    l.foldl max m = max m (l.foldl max 0) := by
  induction l with
  | nil => intro m; simp
  | cons a l ih =>
    intro m
    simp only [List.foldl_cons]
    rw [ih (max m a), ih (max 0 a)]
    omega

lemma maxCols_eq_flat (files : List CsvFile) :
    maxCols files = ((files.map rowLens).flatten).foldl max 0 := by
  rw [List.foldl_flatten, List.foldl_map]
  simp only [maxCols, rowLens, List.foldl_map]

lemma foldl_max_perm {l1 l2 : List Nat} (h : l1.Perm l2) :
    l1.foldl max 0 = l2.foldl max 0 := by
  induction h with
  | nil => rfl
  | cons x _ ih =>
    simp only [List.foldl_cons]
    rw [foldl_max_shift, ih, ← foldl_max_shift]
  | swap x y l =>
    simp only [List.foldl_cons]
    have : max (max 0 y) x = max (max 0 x) y := by omega
    rw [this]
  | trans _ _ ih1 ih2 => exact ih1.trans ih2

lemma maxCols_perm {l1 l2 : List CsvFile} (h : l1.Perm l2) :
    maxCols l1 = maxCols l2 := by
  rw [maxCols_eq_flat, maxCols_eq_flat]
  exact foldl_max_perm ((h.map rowLens).flatten)

lemma maxCols_sortFiles (files : List CsvFile) :
    maxCols (sortFiles files) = maxCols files :=
  maxCols_perm (List.perm_insertionSort _ files)

/-- C3: every row written by `merge_csvs` has exactly W data cells, where
W is the maximum row length over all rows of all artifacts (computed
before blank-row dropping), plus one additional leading provenance cell
when `add_source_column` is enabled. -/
theorem merge_csvs_width_invariant (files : List CsvFile)
    (add_source drop_empty : Bool) (row : List String)
    (hrow : row ∈ (merge_csvs files add_source drop_empty).1) :
    row.length =
      (if add_source then maxCols files + 1 else maxCols files) := by
  rw [merge_csvs_eq] at hrow
  rcases List.mem_flatMap.1 hrow with ⟨f, _, hf⟩
  rcases List.mem_map.1 hf with ⟨r, _, hr⟩
  rw [← hr]
  cases add_source with
  | true => simp [pad_row_length, maxCols_sortFiles]
  | false => simp [pad_row_length, maxCols_sortFiles]

theorem merge_csvs_width_invariant_witness :
    ["b.csv", "z", ""] ∈
        (merge_csvs [("a.csv", [["x", "y"]]), ("b.csv", [["z"]])]
          true true).1 ∧
      (["b.csv", "z", ""] : List String).length =
        (if true then maxCols [("a.csv", [["x", "y"]]), ("b.csv", [["z"]])] + 1
         else maxCols [("a.csv", [["x", "y"]]), ("b.csv", [["z"]])]) :=
  ⟨by decide,
   merge_csvs_width_invariant [("a.csv", [["x", "y"]]), ("b.csv", [["z"]])]
     true true ["b.csv", "z", ""] (by decide)⟩

lemma seed_le_foldl_max (l : List Nat) : ∀ m : Nat, m ≤ l.foldl max m := by
  induction l with
  | nil => intro m; exact Nat.le_refl m
  | cons a l ih =>
    intro m
    simp only [List.foldl_cons]
    exact le_trans (Nat.le_max_left m a) (ih (max m a))

lemma le_foldl_max {a : Nat} {l : List Nat} (h : a ∈ l) :
    a ≤ l.foldl max 0 := by
  induction l with
  | nil => cases h
  | cons b l ih =>
    simp only [List.foldl_cons]
    rcases List.mem_cons.1 h with rfl | h2
    · exact le_trans (Nat.le_max_right 0 a) (seed_le_foldl_max l _)
    · rw [foldl_max_shift]
      exact le_trans (ih h2) (Nat.le_max_right _ _)

/-- Every input row's length is bounded by the width pre-scan. -/
lemma row_length_le_maxCols {files : List CsvFile} {f : CsvFile}
    {r : List String} (hf : f ∈ files) (hr : r ∈ f.2) :
    r.length ≤ maxCols files := by
  rw [maxCols_eq_flat]
  apply le_foldl_max
  rw [List.mem_flatten]
  exact ⟨rowLens f, List.mem_map_of_mem rowLens hf,
    List.mem_map_of_mem (fun r => r.length) hr⟩

/-- C10: the truncation branch of `pad_row` is unreachable inside
`merge_csvs`: every row of every input file is at most `maxCols` long, so
normalizing it appends empty-string padding and discards nothing. -/
theorem pad_row_never_truncates (files : List CsvFile) (f : CsvFile)
    (r : List String) (hf : f ∈ files) (hr : r ∈ f.2) :
    r.length ≤ maxCols files ∧
      pad_row r (maxCols files) =
        r ++ List.replicate (maxCols files - r.length) "" := by
  have hle := row_length_le_maxCols hf hr
  refine ⟨hle, ?_⟩
  unfold pad_row
  split
  next => rfl
  next h =>
    have hlen : r.length = maxCols files :=
      Nat.le_antisymm hle (Nat.le_of_not_lt h)
    rw [← hlen, List.take_length, Nat.sub_self]
    simp

theorem pad_row_never_truncates_witness :
    ("b.csv", [["z"]]) ∈ [("a.csv", [["x", "y"]]), ("b.csv", [["z"]])] ∧
      (["z"] : List String) ∈ [["z"]] ∧
      ((["z"] : List String).length ≤
          maxCols [("a.csv", [["x", "y"]]), ("b.csv", [["z"]])] ∧
        pad_row ["z"] (maxCols [("a.csv", [["x", "y"]]), ("b.csv", [["z"]])]) =
          ["z"] ++ List.replicate
            (maxCols [("a.csv", [["x", "y"]]), ("b.csv", [["z"]])] -
              (["z"] : List String).length) "") :=
  ⟨by decide, by decide,
   pad_row_never_truncates [("a.csv", [["x", "y"]]), ("b.csv", [["z"]])]
     ("b.csv", [["z"]]) ["z"] (by decide) (by decide)⟩

/-- C6: with `drop_empty_rows` set, a row is dropped exactly when every
cell strips to the empty string; the filter runs over the input rows
(after the width W has been computed from all of them, dropped rows
included) and padding to W is applied to the surviving rows only. -/
theorem merge_csvs_blank_row_filter (files : List CsvFile)
    (add_source drop_empty : Bool) (r0 : List String)
    (hdrop : drop_empty = true) :
    (is_empty_row r0 = true ↔ ∀ c ∈ r0, strip c = "") ∧
      (merge_csvs files add_source drop_empty).1 =
        (sortFiles files).flatMap (fun f =>
          (f.2.filter (fun r => !is_empty_row r)).map
            (fun r => if add_source then f.1 :: pad_row r (maxCols files)
                      else pad_row r (maxCols files))) ∧
      merge_csvs [("a.csv", [["x"], ["", "", ""]])] false true =
        ([["x", "", ""]], 1) := by
  subst hdrop
  refine ⟨?_, ?_, by decide⟩
  · simp [is_empty_row, List.all_eq_true]
  · rw [merge_csvs_eq]
    simp only [maxCols_sortFiles]
    congr 1

theorem merge_csvs_blank_row_filter_witness :
    (true : Bool) = true ∧
      ((is_empty_row [" "] = true ↔ ∀ c ∈ ([" "] : List String), strip c = "") ∧
        (merge_csvs [("a.csv", [["x", "y"]])] true true).1 =
          (sortFiles [("a.csv", [["x", "y"]])]).flatMap (fun f =>
            (f.2.filter (fun r => !is_empty_row r)).map
              (fun r =>
                if true then f.1 :: pad_row r (maxCols [("a.csv", [["x", "y"]])])
                else pad_row r (maxCols [("a.csv", [["x", "y"]])]))) ∧
        merge_csvs [("a.csv", [["x"], ["", "", ""]])] false true =
          ([["x", "", ""]], 1)) :=
  ⟨rfl, merge_csvs_blank_row_filter [("a.csv", [["x", "y"]])] true true [" "] rfl⟩

/-- Ascending pairwise keys plus pairwise-distinct keys give strictly
ascending keys. -/
lemma sorted_key_lt_of_nodup {l : List CsvFile}
    (hs : l.Pairwise (fun a b => natural_key a.1 ≤ natural_key b.1))
    (hn : (l.map (fun f => natural_key f.1)).Nodup) :
    l.Pairwise (fun a b => natural_key a.1 < natural_key b.1) := by
  have hne : l.Pairwise (fun a b => natural_key a.1 ≠ natural_key b.1) :=
    List.pairwise_map.mp hn
  exact (hs.and hne).imp (fun h => lt_of_le_of_ne h.1 h.2)

/-- The sort of `merge_csvs` is ascending in `natural_key`. -/
lemma sortFiles_sorted (files : List CsvFile) :
    (sortFiles files).Pairwise
      (fun a b => natural_key a.1 ≤ natural_key b.1) := by
  haveI : IsTotal CsvFile (fun a b => natural_key a.1 ≤ natural_key b.1) :=
    ⟨fun a b => Nat.le_total _ _⟩
  haveI : IsTrans CsvFile (fun a b => natural_key a.1 ≤ natural_key b.1) :=
    ⟨fun _ _ _ h1 h2 => le_trans h1 h2⟩
  exact List.sorted_insertionSort _ files

/-- Two enumerations of the same artifacts sort identically when the
numeric keys are pairwise distinct. -/
lemma sortFiles_eq_of_perm {files1 files2 : List CsvFile}
    (hperm : files1.Perm files2)
    (hkeys : (files1.map (fun f => natural_key f.1)).Nodup) :
    sortFiles files1 = sortFiles files2 := by
  have hkeys2 : (files2.map (fun f => natural_key f.1)).Nodup :=
    (hperm.map (fun f => natural_key f.1)).nodup hkeys
  have hn1 : ((sortFiles files1).map (fun f => natural_key f.1)).Nodup :=
    (((List.perm_insertionSort _ files1).map
      (fun f => natural_key f.1)).symm).nodup hkeys
  have hn2 : ((sortFiles files2).map (fun f => natural_key f.1)).Nodup :=
    (((List.perm_insertionSort _ files2).map
      (fun f => natural_key f.1)).symm).nodup hkeys2
  haveI : IsAntisymm CsvFile (fun a b => natural_key a.1 < natural_key b.1) :=
    ⟨fun a b h1 h2 => absurd (lt_trans h1 h2) (lt_irrefl _)⟩
  exact List.eq_of_perm_of_sorted
    ((List.perm_insertionSort _ files1).trans
      (hperm.trans (List.perm_insertionSort _ files2).symm))
    (sorted_key_lt_of_nodup (sortFiles_sorted files1) hn1)
    (sorted_key_lt_of_nodup (sortFiles_sorted files2) hn2)

/-- C7: `merge_csvs` is a deterministic function of the set of input
artifacts and the two toggles: two runs over the same artifacts, even
enumerated in different orders (with pairwise-distinct numeric keys, so
the stable sort has no ties to break by enumeration order), write
byte-identical row lists and counts. -/
theorem merge_csvs_deterministic (files1 files2 : List CsvFile)
    (add_source drop_empty : Bool) (hperm : files1.Perm files2)
    (hkeys : (files1.map (fun f => natural_key f.1)).Nodup) :
    merge_csvs files1 add_source drop_empty =
      merge_csvs files2 add_source drop_empty := by
  have hsort := sortFiles_eq_of_perm hperm hkeys
  have hempty : files1.isEmpty = files2.isEmpty := by
    have hlen := hperm.length_eq
    cases files1 <;> cases files2 <;> simp_all
  simp only [merge_csvs, hsort, hempty]

theorem merge_csvs_deterministic_witness :
    ([("chunk_2.csv", [["b"]]), ("chunk_10.csv", [["a"]])] : List CsvFile).Perm
        [("chunk_10.csv", [["a"]]), ("chunk_2.csv", [["b"]])] ∧
      (([("chunk_2.csv", [["b"]]), ("chunk_10.csv", [["a"]])] :
          List CsvFile).map (fun f => natural_key f.1)).Nodup ∧
      merge_csvs [("chunk_2.csv", [["b"]]), ("chunk_10.csv", [["a"]])]
          true true =
        merge_csvs [("chunk_10.csv", [["a"]]), ("chunk_2.csv", [["b"]])]
          true true :=
  ⟨by decide, by decide,
   merge_csvs_deterministic _ _ true true (by decide) (by decide)⟩

/-- C4 counterexample: the numeric key of `chunk_2_table_1.csv` and of
`chunk_10_table_1.csv` is the trailing digit run before `.csv` — the
table index 1 in both — so the two artifacts tie and keep enumeration
order: enumerated with `chunk_10_table_1.csv` first, its rows precede
those of `chunk_2_table_1.csv` in the merged output, contradicting the
claimed chunk-number ordering. -/
theorem natural_key_tie_counterexample :
    natural_key "chunk_2_table_1.csv" = 1 ∧
      natural_key "chunk_10_table_1.csv" = 1 ∧
      (merge_csvs [("chunk_10_table_1.csv", [["a"]]),
                   ("chunk_2_table_1.csv", [["b"]])] true true).1 =
        [["chunk_10_table_1.csv", "a"], ["chunk_2_table_1.csv", "b"]] := by
  decide

/-- C4 amended: `merge_csvs` orders artifacts ascending by `natural_key`
(the trailing digit run immediately preceding `.csv`; 0 when absent),
numerically rather than lexicographically, with tied keys preserving
enumeration order; for `chunk_2_table_1.csv` and `chunk_10_table_1.csv`
the keys are equal (both 1, the table index), so their relative order is
the enumeration order rather than the chunk-number order. -/
theorem merge_csvs_natural_order (files : List CsvFile)
    (add_source drop_empty : Bool) (tied : List CsvFile)
    (htied : tied.Pairwise (fun a b => natural_key a.1 ≤ natural_key b.1)) :
    (natural_key "chunk_2.csv" = 2 ∧ natural_key "chunk_10.csv" = 10 ∧
      natural_key "chunk_2_table_1.csv" = 1 ∧
      natural_key "chunk_10_table_1.csv" = 1 ∧
      natural_key "notes.txt" = 0) ∧
      (∃ ordered : List CsvFile,
        files.Perm ordered ∧
        ordered.Pairwise (fun a b => natural_key a.1 ≤ natural_key b.1) ∧
        (merge_csvs files add_source drop_empty).1 =
          ordered.flatMap
            (emitFile add_source drop_empty (maxCols files))) ∧
      sortFiles tied = tied ∧
      (merge_csvs [("chunk_10.csv", [["a"]]), ("chunk_2.csv", [["b"]])]
          true true).1 =
        [["chunk_2.csv", "b"], ["chunk_10.csv", "a"]] := by
  refine ⟨by decide, ?_, ?_, by decide⟩
  · refine ⟨sortFiles files, (List.perm_insertionSort _ files).symm,
      sortFiles_sorted files, ?_⟩
    rw [merge_csvs_eq]
    simp only [maxCols_sortFiles]
  · exact List.Sorted.insertionSort_eq htied

theorem merge_csvs_natural_order_witness :
    ([("a1.csv", [["p"]]), ("b1.csv", [["q"]])] : List CsvFile).Pairwise
        (fun a b => natural_key a.1 ≤ natural_key b.1) ∧
      ((natural_key "chunk_2.csv" = 2 ∧ natural_key "chunk_10.csv" = 10 ∧
        natural_key "chunk_2_table_1.csv" = 1 ∧
        natural_key "chunk_10_table_1.csv" = 1 ∧
        natural_key "notes.txt" = 0) ∧
      (∃ ordered : List CsvFile,
        ([("chunk_10.csv", [["a"]]), ("chunk_2.csv", [["b"]])] :
            List CsvFile).Perm ordered ∧
        ordered.Pairwise (fun a b => natural_key a.1 ≤ natural_key b.1) ∧
        (merge_csvs [("chunk_10.csv", [["a"]]), ("chunk_2.csv", [["b"]])]
            true true).1 =
          ordered.flatMap (emitFile true true
            (maxCols [("chunk_10.csv", [["a"]]), ("chunk_2.csv", [["b"]])]))) ∧
      sortFiles [("a1.csv", [["p"]]), ("b1.csv", [["q"]])] =
        [("a1.csv", [["p"]]), ("b1.csv", [["q"]])] ∧
      (merge_csvs [("chunk_10.csv", [["a"]]), ("chunk_2.csv", [["b"]])]
          true true).1 =
        [["chunk_2.csv", "b"], ["chunk_10.csv", "a"]]) :=
  ⟨by decide,
   merge_csvs_natural_order
     [("chunk_10.csv", [["a"]]), ("chunk_2.csv", [["b"]])] true true
     [("a1.csv", [["p"]]), ("b1.csv", [["q"]])] (by decide)⟩

/-- C8 counterexample: for a missing input directory, `merge_csvs`
returns normally (writing no rows and returning 0) instead of aborting
the run — `Path.glob` on a missing directory yields no entries, so the
`if not csv_files` early return is taken and nothing raises. -/
theorem merge_csvs_missing_dir_counterexample :
    merge_csvs_run none true true = MergeOutcome.ok [] 0 ∧
      ¬ ∃ msg, merge_csvs_run none true true = MergeOutcome.fatal msg := by
  refine ⟨rfl, ?_⟩
  rintro ⟨msg, h⟩
  rw [show merge_csvs_run none true true = MergeOutcome.ok [] 0 from rfl] at h
  exact MergeOutcome.noConfusion h

/-- C8 amended: a missing input directory is handled exactly like an
empty one: `merge_csvs` returns zero rows written, produces no merged
rows, and raises no error. -/
theorem merge_csvs_run_missing_dir (add_source drop_empty : Bool) :
    merge_csvs_run none add_source drop_empty = MergeOutcome.ok [] 0 ∧
      merge_csvs_run none add_source drop_empty =
        merge_csvs_run (some []) add_source drop_empty :=
  ⟨rfl, rfl⟩

/-- C9: an empty artifact directory gives an empty merge result with
zero rows written and no error, and a source document with zero pages
gives an empty chunking result: no chunks, no legacy chunks, no error. -/
theorem empty_inputs_yield_empty_results {α : Type} (size : List α → Nat)
    (P S : Nat) (add_source drop_empty : Bool) :
    merge_csvs_run (some []) add_source drop_empty = MergeOutcome.ok [] 0 ∧
      generate_pdf_chunks size P S ([] : List α) = ([], []) :=
  ⟨rfl, rfl⟩

/-! ## analyze_chunks_to_csv.py — build_grid_from_table -/

/-- One Azure table cell as consumed by `build_grid_from_table`:
`getattr(cell, "row_index", None)`, `getattr(cell, "column_index", None)`
may be absent (`none`), `content` may be `None` (mapped to `""` by
`or ""`). -/
structure AzureCell where
  row_index : Option Int
  column_index : Option Int
  content : Option String
deriving DecidableEq

/-- An Azure table: `row_count`/`column_count` may be `None`
(`table.row_count or 0`), plus the cell collection. -/
structure AzureTable where
  row_count : Option Nat
  column_count : Option Nat
  cells : List AzureCell
deriving DecidableEq

/-- Assignment `grid[r][c] = v` on a list-of-lists grid (no effect out of
range,
matching that the loop guard makes the assignment always in range). -/
def setCell : List (List String) → Nat → Nat → String → List (List String)
  | [], _, _, _ => []
  | row :: rows, 0, c, v => row.set c v :: rows
  | row :: rows, r + 1, c, v => row :: setCell rows r c v

/-- One iteration of the cell loop of `build_grid_from_table`
(analyze_chunks_to_csv.py lines 32-37). -/
def gridStep (R C : Nat) (g : List (List String)) (cell : AzureCell) :
    List (List String) :=
  match cell.row_index, cell.column_index with
  | some r, some c =>
    if 0 ≤ r ∧ r < (R : Int) ∧ 0 ≤ c ∧ c < (C : Int) then
      setCell g r.toNat c.toNat (strip (cell.content.getD ""))
    else g
  | _, _ => g

/-- Embedding of `build_grid_from_table` (analyze_chunks_to_csv.py lines
24-38). -/
def build_grid_from_table (t : AzureTable) : List (List String) :=
  let row_count := t.row_count.getD 0
  let col_count := t.column_count.getD 0
  t.cells.foldl (gridStep row_count col_count)
    (List.replicate row_count (List.replicate col_count ""))

/-- The content the finished grid holds at in-range position `(r, c)`:
the stripped content of the last cell of the collection addressing
`(r, c)`, or `""` when no cell addresses it. -/
def cellAt (cells : List AzureCell) (r c : Nat) : String :=
  match cells.reverse.find? (fun cl =>
      cl.row_index == some (r : Int) && cl.column_index == some (c : Int)) with
  | some cl => strip (cl.content.getD "")
  | none => ""

example :
    build_grid_from_table
      ⟨some 2, some 2,
       [⟨some 0, some 1, some " a "⟩,
        ⟨some 5, some 0, some "dropped"⟩,
        ⟨some 1, none, some "dropped"⟩,
        ⟨some 0, some 1, some "wins"⟩]⟩ =
      [["", "wins"], ["", ""]] := by decide

lemma setCell_length (g : List (List String)) :
    ∀ (r c : Nat) (v : String), (setCell g r c v).length = g.length := by
  induction g with
  | nil => intro r c v; rfl
  | cons row rows ih =>
    intro r c v
    cases r with
    | zero => rfl
    | succ r => simp [setCell, ih]

lemma setCell_row_length {C : Nat} (g : List (List String)) :
    ∀ (r c : Nat) (v : String), (∀ row ∈ g, row.length = C) →
      ∀ row ∈ setCell g r c v, row.length = C := by
  induction g with
  | nil => intro r c v _ row hrow; cases hrow
  | cons row0 rows ih =>
    intro r c v hg row hrow
    cases r with
    | zero =>
      rcases List.mem_cons.1 hrow with rfl | h2
      · rw [List.length_set]
        exact hg row0 (List.mem_cons_self _ _)
      · exact hg row (List.mem_cons_of_mem _ h2)
    | succ r =>
      rcases List.mem_cons.1 hrow with rfl | h2
      · exact hg row (List.mem_cons_self _ _)
      · exact ih r c v (fun rw0 h => hg rw0 (List.mem_cons_of_mem _ h)) row h2

lemma setCell_getD_row_ne (g : List (List String)) :
    ∀ (r' r c : Nat) (v : String), r' ≠ r →
      (setCell g r' c v).getD r [] = g.getD r [] := by
  induction g with
  | nil => intro r' r c v _; rfl
  | cons row rows ih =>
    intro r' r c v hne
    cases r' with
    | zero =>
      cases r with
      | zero => exact absurd rfl hne
      | succ r => simp [setCell]
    | succ r' =>
      cases r with
      | zero => simp [setCell]
      | succ r =>
        simp only [setCell, List.getD_cons_succ]
        exact ih r' r c v (by omega)

lemma setCell_getD_row_self (g : List (List String)) :
    ∀ (r c : Nat) (v : String), r < g.length →
      (setCell g r c v).getD r [] = (g.getD r []).set c v := by
  induction g with
  | nil => intro r c v h; simp at h
  | cons row rows ih =>
    intro r c v h
    cases r with
    | zero => simp [setCell]
    | succ r => simpa [setCell] using ih r c v (by simpa using h)

lemma set_getD_self (row : List String) (c : Nat) (v d : String)
    (h : c < row.length) : (row.set c v).getD c d = v := by
  rw [List.getD_eq_getElem?_getD, List.getElem?_set_self h]
  rfl

lemma set_getD_ne (row : List String) (c' c : Nat) (v d : String)
    (h : c' ≠ c) : (row.set c' v).getD c d = row.getD c d := by
  rw [List.getD_eq_getElem?_getD, List.getElem?_set_ne h,
    ← List.getD_eq_getElem?_getD]

lemma gridStep_length (R C : Nat) (g : List (List String)) (x : AzureCell) :
    (gridStep R C g x).length = g.length := by
  unfold gridStep
  cases x.row_index with
  | none => rfl
  | some ri =>
    cases x.column_index with
    | none => rfl
    | some ci =>
      dsimp only
      split
      · exact setCell_length g _ _ _
      · rfl

lemma gridStep_row_length {C : Nat} (R : Nat) (g : List (List String))
    (x : AzureCell) (h : ∀ row ∈ g, row.length = C) :
    ∀ row ∈ gridStep R C g x, row.length = C := by
  unfold gridStep
  cases x.row_index with
  | none => exact h
  | some ri =>
    cases x.column_index with
    | none => exact h
    | some ci =>
      dsimp only
      split
      · exact setCell_row_length g _ _ _ h
      · exact h

/-- A cell that does not address position `(r, c)` leaves that position
of the grid unchanged (whether it is dropped or written elsewhere). -/
lemma gridStep_getD_skip (R C : Nat) (g : List (List String)) (x : AzureCell)
    (glen : g.length = R) (r c : Nat)
    (hp : (x.row_index == some (r : Int) &&
      x.column_index == some (c : Int)) = false) :
    ((gridStep R C g x).getD r []).getD c "" = (g.getD r []).getD c "" := by
  unfold gridStep
  cases hri : x.row_index with
  | none => rfl
  | some ri =>
    cases hci : x.column_index with
    | none => rfl
    | some ci =>
      dsimp only
      split
      next hguard =>
        rw [hri, hci] at hp
        have hne : ¬(ri = (r : Int) ∧ ci = (c : Int)) := by
          intro he
          rw [he.1, he.2] at hp
          simp at hp
        obtain ⟨hri0, hriR, hci0, hciC⟩ := hguard
        by_cases hrr : ri.toNat = r
        · have hcc : ci.toNat ≠ c := by omega
          rw [hrr]
          rw [setCell_getD_row_self _ r _ _ (by rw [glen]; omega)]
          exact set_getD_ne _ _ _ _ _ hcc
        · rw [setCell_getD_row_ne _ _ _ _ _ hrr]
      next => rfl

/-- Invariant of the cell loop: the grid shape is preserved, and each
in-range position holds the stripped content of the last cell written to
it, with the initial grid's content as the default. -/
lemma grid_foldl_spec (R C : Nat) (cells : List AzureCell) :
    ∀ g : List (List String), g.length = R → (∀ row ∈ g, row.length = C) →
      (cells.foldl (gridStep R C) g).length = R ∧
      (∀ row ∈ cells.foldl (gridStep R C) g, row.length = C) ∧
      ∀ r c : Nat, r < R → c < C →
        ((cells.foldl (gridStep R C) g).getD r []).getD c "" =
          (match cells.reverse.find? (fun cl =>
              cl.row_index == some (r : Int) &&
              cl.column_index == some (c : Int)) with
           | some cl => strip (cl.content.getD "")
           | none => (g.getD r []).getD c "") := by
  induction cells using List.reverseRecOn with
  | nil =>
    intro g hlen hrows
    exact ⟨hlen, hrows, fun r c _ _ => rfl⟩
  | append_singleton cells x ih =>
    intro g hlen hrows
    obtain ⟨ihlen, ihrows, ihcontent⟩ := ih g hlen hrows
    simp only [List.foldl_append, List.foldl_cons, List.foldl_nil,
      List.reverse_append, List.reverse_cons, List.reverse_nil,
      List.nil_append, List.singleton_append, List.find?_cons]
    refine ⟨by rw [gridStep_length]; exact ihlen,
      gridStep_row_length R _ x ihrows, ?_⟩
    intro r c hr hc
    cases hp : (x.row_index == some (r : Int) &&
        x.column_index == some (c : Int)) with
    | true =>
      obtain ⟨h1, h2⟩ := Bool.and_eq_true_iff.mp hp
      have hr' : x.row_index = some (r : Int) := by simpa using h1
      have hc' : x.column_index = some (c : Int) := by simpa using h2
      have hguard : (0 : Int) ≤ (r : Int) ∧ (r : Int) < (R : Int) ∧
          (0 : Int) ≤ (c : Int) ∧ (c : Int) < (C : Int) :=
        ⟨Int.natCast_nonneg r, by exact_mod_cast hr,
         Int.natCast_nonneg c, by exact_mod_cast hc⟩
      simp only [gridStep, hr', hc', if_pos hguard, Int.toNat_ofNat]
      rw [setCell_getD_row_self _ r c _ (by rw [ihlen]; exact hr)]
      have hrowmem : (cells.foldl (gridStep R C) g).getD r [] ∈
          cells.foldl (gridStep R C) g := by
        rw [List.getD_eq_getElem _ _ (by rw [ihlen]; exact hr)]
        exact List.getElem_mem _
      rw [set_getD_self _ c _ _ (by rw [ihrows _ hrowmem]; exact hc)]
    | false =>
      rw [gridStep_getD_skip R C _ x ihlen r c hp, ihcontent r c hr hc]

/-- C5: `build_grid_from_table` returns a grid of exactly
`row_count or 0` rows of exactly `column_count or 0` cells; each in-range
position holds the whitespace-stripped content of the last cell of the
collection addressing it (last-write-wins), or the empty string when no
in-range cell addresses it; cells with missing or out-of-range indices
are silently dropped and never affect the grid. -/
theorem build_grid_from_table_spec (t : AzureTable) (r c : Nat)
    (hr : r < t.row_count.getD 0) (hc : c < t.column_count.getD 0) :
    (build_grid_from_table t).length = t.row_count.getD 0 ∧
      (∀ row ∈ build_grid_from_table t,
        row.length = t.column_count.getD 0) ∧
      ((build_grid_from_table t).getD r []).getD c "" = cellAt t.cells r c := by
  have base_rows : ∀ row ∈ List.replicate (t.row_count.getD 0)
      (List.replicate (t.column_count.getD 0) ""),
      row.length = t.column_count.getD 0 := by
    intro row h
    rw [List.eq_of_mem_replicate h]
    simp
  obtain ⟨h1, h2, h3⟩ := grid_foldl_spec (t.row_count.getD 0)
    (t.column_count.getD 0) t.cells
    (List.replicate (t.row_count.getD 0)
      (List.replicate (t.column_count.getD 0) ""))
    (by simp) base_rows
  dsimp only [build_grid_from_table]
  refine ⟨h1, h2, ?_⟩
  rw [h3 r c hr hc]
  have houter : (List.replicate (t.row_count.getD 0)
      (List.replicate (t.column_count.getD 0) "")).getD r [] =
      List.replicate (t.column_count.getD 0) "" := by
    rw [List.getD_eq_getElem _ _ (by simpa using hr)]
    simp
  have hbase : ((List.replicate (t.row_count.getD 0)
      (List.replicate (t.column_count.getD 0) "")).getD r []).getD c "" =
      "" := by
    rw [houter, List.getD_eq_getElem _ _ (by simpa using hc)]
    simp
  cases hfind : t.cells.reverse.find? (fun cl =>
      cl.row_index == some (r : Int) &&
      cl.column_index == some (c : Int)) with
  | none => simp only [cellAt, hfind, hbase]
  | some cl => simp only [cellAt, hfind]

theorem build_grid_from_table_spec_witness :
    0 < (some 2 : Option Nat).getD 0 ∧ 1 < (some 2 : Option Nat).getD 0 ∧
      ((build_grid_from_table
          ⟨some 2, some 2,
           [⟨some 0, some 1, some " a "⟩,
            ⟨some 5, some 0, some "x"⟩,
            ⟨some 1, none, some "y"⟩,
            ⟨some 0, some 1, some " wins "⟩]⟩).length =
          (some 2 : Option Nat).getD 0 ∧
        (∀ row ∈ build_grid_from_table
            ⟨some 2, some 2,
             [⟨some 0, some 1, some " a "⟩,
              ⟨some 5, some 0, some "x"⟩,
              ⟨some 1, none, some "y"⟩,
              ⟨some 0, some 1, some " wins "⟩]⟩,
          row.length = (some 2 : Option Nat).getD 0) ∧
        ((build_grid_from_table
            ⟨some 2, some 2,
             [⟨some 0, some 1, some " a "⟩,
              ⟨some 5, some 0, some "x"⟩,
              ⟨some 1, none, some "y"⟩,
              ⟨some 0, some 1, some " wins "⟩]⟩).getD 0 []).getD 1 "" =
          cellAt
            [⟨some 0, some 1, some " a "⟩,
             ⟨some 5, some 0, some "x"⟩,
             ⟨some 1, none, some "y"⟩,
             ⟨some 0, some 1, some " wins "⟩] 0 1) :=
  ⟨by decide, by decide,
   build_grid_from_table_spec
     ⟨some 2, some 2,
      [⟨some 0, some 1, some " a "⟩,
       ⟨some 5, some 0, some "x"⟩,
       ⟨some 1, none, some "y"⟩,
       ⟨some 0, some 1, some " wins "⟩]⟩ 0 1 (by decide) (by decide)⟩
